import Mathlib

/-!
# Verification of the gator feed aggregator core

Shallow embedding of the gator RSS aggregator (commands.go, main.go,
internal/config) together with models of the pieces of the Go standard
library it relies on (`time.Parse` restricted to the six layouts the code
uses, `time.ParseDuration`, `time.NewTicker`'s non-positive panic, and
`fmt.Sscan` of a single `int`), and proofs about the ingestion pipeline,
the feed selector, the poller and the CLI handlers.

Machine integers are modelled as `Nat`/`Int` with explicit bounds where Go
overflow semantics matter (`uint64`/`int64` checks in `ParseDuration`,
`int32` truncation in `handlerBrowse`).  Strings are handled as `List Char`;
the Go code scans bytes, but every table the scanned inputs are compared
against is pure ASCII, where byte-wise and char-wise scanning agree.
-/

set_option autoImplicit false

namespace Gator

/-! ## Character helpers shared by the stdlib models -/

def isDigitChar (c : Char) : Bool := '0' ≤ c && c ≤ '9'

def digitVal (c : Char) : Nat := c.toNat - '0'.toNat

def isUpperChar (c : Char) : Bool := 'A' ≤ c && c ≤ 'Z'

def digitsVal (l : List Char) : Nat := l.foldl (fun a c => a * 10 + digitVal c) 0

/-- Model of Go `time`'s `getnum`: a fixed-width field reads exactly two
digits, a flexible one reads one or two digits (greedily two). -/
def getnum2 (fixed : Bool) : List Char → Option (Nat × List Char)
  | [] => none
  | [c] => if isDigitChar c && !fixed then some (digitVal c, []) else none
  | c1 :: c2 :: rest =>
    if isDigitChar c1 then
      if isDigitChar c2 then some (digitVal c1 * 10 + digitVal c2, rest)
      else if fixed then none
      else some (digitVal c1, c2 :: rest)
    else none

/-- Model of Go `time`'s `stdLongYear` field: exactly four digits. -/
def getnum4 : List Char → Option (Nat × List Char)
  | a :: b :: c :: d :: rest =>
    if isDigitChar a && isDigitChar b && isDigitChar c && isDigitChar d then
      some (digitVal a * 1000 + digitVal b * 100 + digitVal c * 10 + digitVal d, rest)
    else none
  | _ => none

/-- Model of Go `time.leadingInt`: scan decimal digits into a `uint64`
accumulator, failing (like Go's `errLeadingInt`) past `1<<63`. -/
def leadingIntCh : List Char → Nat → Option (Nat × List Char)
  | [], x => some (x, [])
  | c :: cs, x =>
    if isDigitChar c then
      if x > 2 ^ 63 / 10 then none
      else
        let y := x * 10 + digitVal c
        if y > 2 ^ 63 then none else leadingIntCh cs y
    else some (x, c :: cs)

/-! ## Model of Go `time.Parse` restricted to the layouts used in commands.go

`parsePublishedDate` (commands.go:262-280) passes six fixed layout strings
to `time.Parse`.  We translate each layout string to the sequence of
layout chunks Go's `nextStdChunk` produces for it, and model the main
parsing loop of `time.Parse` over those chunks.  The process-local time
zone is modelled as UTC (no zone abbreviations defined), matching Go's
documented behaviour that an unknown abbreviation yields a fabricated
zone with a zero offset. -/

/-- One layout chunk, as produced by Go `time.nextStdChunk` for the six
layouts in `parsePublishedDate`. -/
inductive Chunk where
  /-- literal layout text, matched exactly -/
  | lit (s : List Char)
  /-- `Mon` (stdWeekDay): parsed, checked for syntax, otherwise ignored -/
  | weekDayAbbr
  /-- `Jan` (stdMonth) -/
  | monthAbbr
  /-- `02` (stdZeroDay) -/
  | zeroDay
  /-- `01` (stdZeroMonth) -/
  | zeroMonth
  /-- `2006` (stdLongYear) -/
  | longYear
  /-- `06` (stdYear) -/
  | twoYear
  /-- `15` (stdHour, one or two digits) -/
  | hourNum
  /-- `04` (stdZeroMinute) -/
  | zeroMinute
  /-- `05` (stdZeroSecond) -/
  | zeroSecond
  /-- `-0700` (stdNumTZ) -/
  | numTZ
  /-- `MST` (stdTZ) -/
  | abbrTZ
  /-- `Z07:00` (stdISO8601ColonTZ) -/
  | isoColonTZ
deriving Repr, DecidableEq

/-- Accumulator of Go `time.Parse`'s main loop; field defaults are Go's
(`month`, `day` default to 1; a zone is initially unset). -/
structure ParseAcc where
  year : Nat
  month : Nat
  day : Nat
  hour : Nat
  minute : Nat
  second : Nat
  nsec : Nat
  zOffset : Option Int
  zName : Option (List Char)
deriving Repr, DecidableEq

def initAcc : ParseAcc := ⟨0, 1, 1, 0, 0, 0, 0, none, none⟩

def shortDayNames : List (List Char) :=
  ["Sun".toList, "Mon".toList, "Tue".toList, "Wed".toList,
   "Thu".toList, "Fri".toList, "Sat".toList]

def shortMonthNames : List (List Char) :=
  ["Jan".toList, "Feb".toList, "Mar".toList, "Apr".toList,
   "May".toList, "Jun".toList, "Jul".toList, "Aug".toList,
   "Sep".toList, "Oct".toList, "Nov".toList, "Dec".toList]

/-- Model of Go `time.match`'s per-byte comparison: equal, or equal after
setting bit 0x20 provided the result is an ASCII lower-case letter. -/
def chEqFold (a b : Char) : Bool :=
  if a = b then true
  else
    let x := a.toNat ||| 32
    let y := b.toNat ||| 32
    x = y && 97 ≤ x && x ≤ 122

/-- Model of Go `time.match` (case-insensitive ASCII comparison). -/
def matchFold : List Char → List Char → Bool
  | [], [] => true
  | a :: as, b :: bs => chEqFold a b && matchFold as bs
  | _, _ => false

/-- Model of Go `time.lookup`: first table entry that case-insensitively
matches a prefix of the value wins; returns its index and the rest. -/
def lookupTab : List (List Char) → List Char → Nat → Option (Nat × List Char)
  | [], _, _ => none
  | nm :: tab, v, i =>
    if nm.length ≤ v.length && matchFold (v.take nm.length) nm then
      some (i, v.drop nm.length)
    else lookupTab tab v (i + 1)

/-- Model of Go `time.parseSignedOffset`: length of a `±hh`-style signed
offset prefix, `0` when there is none (or the hours exceed 23). -/
def parseSignedOffset (v : List Char) : Nat :=
  match v with
  | [] => 0
  | c :: rest =>
    if c = '+' ∨ c = '-' then
      match leadingIntCh rest 0 with
      | none => 0
      | some (x, rem) =>
        if rem.length = rest.length then 0
        else if x > 23 then 0
        else v.length - rem.length
    else 0

/-- Model of Go `time.parseGMT`: `GMT` possibly followed by a signed hour
offset. -/
def parseGMT (v : List Char) : Nat :=
  match v.drop 3 with
  | [] => 3
  | c :: _ => if c = '-' ∨ c = '+' then 3 + parseSignedOffset (v.drop 3) else 3

/-- Count of leading ASCII upper-case letters, capped at 6
(the scan in Go `time.parseTimeZone`). -/
def countUpper : List Char → Nat → Nat
  | [], n => n
  | c :: cs, n =>
    if n ≥ 6 then n else if isUpperChar c then countUpper cs (n + 1) else n

/-- Model of Go `time.parseTimeZone`: how many characters of `v` form a
time-zone abbreviation, `none` if they do not look like one. -/
def parseTimeZone (v : List Char) : Option Nat :=
  if v.length < 3 then none
  else if v.take 4 = "ChST".toList ∨ v.take 4 = "MeST".toList then some 4
  else if v.take 3 = "GMT".toList then some (parseGMT v)
  else
    match v with
    | [] => none
    | c :: _ =>
      if c = '+' ∨ c = '-' then
        let l := parseSignedOffset v
        if l > 0 then some l else none
      else
        match countUpper v 0 with
        | 3 => some 3
        | 4 => if v.get? 3 = some 'T' ∨ v.take 4 = "WITA".toList then some 4 else none
        | 5 => if v.get? 4 = some 'T' then some 5 else none
        | _ => none

/-- Literal layout text must match the value exactly. -/
def dropLit : List Char → List Char → Option (List Char)
  | [], v => some v
  | _ :: _, [] => none
  | c :: cs, d :: ds => if c = d then dropLit cs ds else none

/-- Signed `±hhmm` numeric zone (stdNumTZ): offset in seconds. -/
def parseNumTZ : List Char → Option (Int × List Char)
  | s :: h1 :: h2 :: m1 :: m2 :: rest =>
    if (s = '+' ∨ s = '-') ∧ isDigitChar h1 ∧ isDigitChar h2 ∧
        isDigitChar m1 ∧ isDigitChar m2 then
      let hr := digitVal h1 * 10 + digitVal h2
      let mm := digitVal m1 * 10 + digitVal m2
      let off : Int := ((hr * 60 + mm) * 60 : Nat)
      some (if s = '-' then -off else off, rest)
    else none
  | _ => none

/-- `Z` or signed `±hh:mm` zone (stdISO8601ColonTZ): offset in seconds. -/
def parseIsoColonTZ : List Char → Option (Int × List Char)
  | 'Z' :: rest => some (0, rest)
  | s :: h1 :: h2 :: ':' :: m1 :: m2 :: rest =>
    if (s = '+' ∨ s = '-') ∧ isDigitChar h1 ∧ isDigitChar h2 ∧
        isDigitChar m1 ∧ isDigitChar m2 then
      let hr := digitVal h1 * 10 + digitVal h2
      let mm := digitVal m1 * 10 + digitVal m2
      let off : Int := ((hr * 60 + mm) * 60 : Nat)
      some (if s = '-' then -off else off, rest)
    else none
  | _ => none

/-- After a seconds field, Go `time.Parse` consumes an unannounced
fractional second (`.` or `,` followed by digits) when the layout has no
fractional chunk — which none of the six layouts here has.  The first
nine fraction digits become nanoseconds (Go `parseNanoseconds`). -/
def consumeFraction (acc : ParseAcc) (v : List Char) : ParseAcc × List Char :=
  match v with
  | p :: d :: ds =>
    if (p = '.' ∨ p = ',') ∧ isDigitChar d then
      let digs := (d :: ds).takeWhile isDigitChar
      let rest := (d :: ds).dropWhile isDigitChar
      let used := digs.take 9
      let ns := digitsVal used * 10 ^ (9 - used.length)
      ({ acc with nsec := ns }, rest)
    else (acc, v)
  | _ => (acc, v)

/-- One step of the main loop of Go `time.Parse` for one layout chunk,
including the inline range checks Go performs (hour < 24, minute < 60,
second < 60, month within 1..12). -/
def parseChunk (acc : ParseAcc) (v : List Char) : Chunk → Option (ParseAcc × List Char)
  | .lit s => (dropLit s v).map (fun v2 => (acc, v2))
  | .weekDayAbbr =>
    (lookupTab shortDayNames v 0).map (fun p => (acc, p.2))
  | .monthAbbr =>
    (lookupTab shortMonthNames v 0).map (fun p => ({ acc with month := p.1 + 1 }, p.2))
  | .zeroDay =>
    (getnum2 true v).map (fun p => ({ acc with day := p.1 }, p.2))
  | .zeroMonth =>
    (getnum2 true v).bind (fun p =>
      if p.1 = 0 ∨ 12 < p.1 then none else some ({ acc with month := p.1 }, p.2))
  | .longYear =>
    (getnum4 v).map (fun p => ({ acc with year := p.1 }, p.2))
  | .twoYear =>
    (getnum2 true v).map (fun p =>
      ({ acc with year := if p.1 ≥ 69 then p.1 + 1900 else p.1 + 2000 }, p.2))
  | .hourNum =>
    (getnum2 false v).bind (fun p =>
      if p.1 ≥ 24 then none else some ({ acc with hour := p.1 }, p.2))
  | .zeroMinute =>
    (getnum2 true v).bind (fun p =>
      if p.1 ≥ 60 then none else some ({ acc with minute := p.1 }, p.2))
  | .zeroSecond =>
    (getnum2 true v).bind (fun p =>
      if p.1 ≥ 60 then none
      else some (consumeFraction { acc with second := p.1 } p.2))
  | .numTZ =>
    (parseNumTZ v).map (fun p => ({ acc with zOffset := some p.1 }, p.2))
  | .isoColonTZ =>
    (parseIsoColonTZ v).map (fun p => ({ acc with zOffset := some p.1 }, p.2))
  | .abbrTZ =>
    if v.take 3 = "UTC".toList then some ({ acc with zOffset := some 0 }, v.drop 3)
    else
      (parseTimeZone v).map (fun n => ({ acc with zName := some (v.take n) }, v.drop n))

/-- The main loop of Go `time.Parse`: run every chunk, then require the
whole value to be consumed (Go's "extra text" error). -/
def runChunks : List Chunk → ParseAcc → List Char → Option ParseAcc
  | [], acc, v => if v = [] then some acc else none
  | ch :: chs, acc, v =>
    match parseChunk acc v ch with
    | some (acc2, v2) => runChunks chs acc2 v2
    | none => none

def isLeapYear (y : Nat) : Bool := y % 4 = 0 && (y % 100 ≠ 0 || y % 400 = 0)

/-- Go `time.daysIn`. -/
def daysInMonth (m y : Nat) : Nat :=
  if m = 2 then (if isLeapYear y then 29 else 28)
  else if m = 4 ∨ m = 6 ∨ m = 9 ∨ m = 11 then 30
  else 31

/-- Model of Go `time`'s signed `atoi` on the digits guaranteed by
`parseGMT` (used only for fabricated `GMT±h` zones). -/
def atoiSigned : List Char → Int
  | '-' :: ds => -(digitsVal ds : Int)
  | '+' :: ds => (digitsVal ds : Int)
  | ds => (digitsVal ds : Int)

/-- Zone resolution at the end of Go `time.Parse`, with the process-local
zone modelled as UTC: a numeric offset stands as given; a bare
abbreviation is unknown locally and fabricates a zero-offset zone, except
a fabricated `GMT±h` which carries `h` hours; no zone at all defaults to
UTC. -/
def resolveOffset (acc : ParseAcc) : Int :=
  match acc.zOffset with
  | some off => off
  | none =>
    match acc.zName with
    | none => 0
    | some nm =>
      if nm.take 3 = "GMT".toList ∧ nm.length > 3 then atoiSigned (nm.drop 3) * 3600
      else 0

/-- The result of a successful Go `time.Parse`: the civil (wall-clock)
fields together with the zone offset in seconds east of UTC.  These two
pieces fully determine the `time.Time` Go builds. -/
structure GoTime where
  year : Nat
  month : Nat
  day : Nat
  hour : Nat
  minute : Nat
  second : Nat
  nsec : Nat
  offset : Int
deriving Repr, DecidableEq

/-- The civil (wall-clock) part of a parsed time, without the zone. -/
def civilOf (t : GoTime) : Nat × Nat × Nat × Nat × Nat × Nat :=
  (t.year, t.month, t.day, t.hour, t.minute, t.second)

/-- Model of Go `time.Parse` for one of the six layouts: run the chunk
loop, then apply Go's day-of-month validation. -/
def goTimeParse (layout : List Chunk) (v : List Char) : Option GoTime :=
  match runChunks layout initAcc v with
  | none => none
  | some acc =>
    if acc.day = 0 ∨ acc.day > daysInMonth acc.month acc.year then none
    else some ⟨acc.year, acc.month, acc.day, acc.hour, acc.minute, acc.second,
               acc.nsec, resolveOffset acc⟩

/-- Chunks of Go `time.RFC1123Z` = `"Mon, 02 Jan 2006 15:04:05 -0700"`. -/
def rfc1123zL : List Chunk :=
  [.weekDayAbbr, .lit [',', ' '], .zeroDay, .lit [' '], .monthAbbr, .lit [' '],
   .longYear, .lit [' '], .hourNum, .lit [':'], .zeroMinute, .lit [':'],
   .zeroSecond, .lit [' '], .numTZ]

/-- Chunks of Go `time.RFC1123` = `"Mon, 02 Jan 2006 15:04:05 MST"`. -/
def rfc1123L : List Chunk :=
  [.weekDayAbbr, .lit [',', ' '], .zeroDay, .lit [' '], .monthAbbr, .lit [' '],
   .longYear, .lit [' '], .hourNum, .lit [':'], .zeroMinute, .lit [':'],
   .zeroSecond, .lit [' '], .abbrTZ]

/-- Chunks of Go `time.RFC822Z` = `"02 Jan 06 15:04 -0700"`. -/
def rfc822zL : List Chunk :=
  [.zeroDay, .lit [' '], .monthAbbr, .lit [' '], .twoYear, .lit [' '],
   .hourNum, .lit [':'], .zeroMinute, .lit [' '], .numTZ]

/-- Chunks of Go `time.RFC822` = `"02 Jan 06 15:04 MST"`. -/
def rfc822L : List Chunk :=
  [.zeroDay, .lit [' '], .monthAbbr, .lit [' '], .twoYear, .lit [' '],
   .hourNum, .lit [':'], .zeroMinute, .lit [' '], .abbrTZ]

/-- Chunks of the layout `"2006-01-02T15:04:05Z07:00"` (commands.go:268). -/
def isoL : List Chunk :=
  [.longYear, .lit ['-'], .zeroMonth, .lit ['-'], .zeroDay, .lit ['T'],
   .hourNum, .lit [':'], .zeroMinute, .lit [':'], .zeroSecond, .isoColonTZ]

/-- Chunks of the layout `"2006-01-02 15:04:05"` (commands.go:269). -/
def bareL : List Chunk :=
  [.longYear, .lit ['-'], .zeroMonth, .lit ['-'], .zeroDay, .lit [' '],
   .hourNum, .lit [':'], .zeroMinute, .lit [':'], .zeroSecond]

/-- The `formats` slice of `parsePublishedDate` (commands.go:263-270), in
source order. -/
def timeFormats : List (List Chunk) :=
  [rfc1123zL, rfc1123L, rfc822zL, rfc822L, isoL, bareL]

/-- The format-trying loop of `parsePublishedDate` (commands.go:272-277):
return the first successful parse in list order. -/
def tryFormats : List (List Chunk) → List Char → Option GoTime
  | [], _ => none
  | f :: rest, v =>
    match goTimeParse f v with
    | some t => some t
    | none => tryFormats rest v

/-- `parsePublishedDate` (commands.go:262-280).  `none` models the
`"no valid date format found"` error (the spec's `DateFormatError`). -/
def parsePublishedDate (s : String) : Option GoTime :=
  tryFormats timeFormats s.toList

/-! ## Model of Go `time.ParseDuration` and `time.NewTicker`

`handlerAgg` (commands.go:167-191) parses its argument with
`time.ParseDuration` and hands the result to `time.NewTicker`, which
panics on a non-positive duration.  Durations are int64 nanoseconds; the
model keeps Go's `uint64` accumulation with its explicit `1<<63` overflow
checks.  Go adds the fractional part as
`uint64(float64(f) * (float64(unit) / scale))`; the model uses the exact
rational `f * unit / scale` truncated, which agrees except for
float-rounding on extreme fraction lengths (irrelevant to any claim). -/

/-- Go `time.leadingFraction`: digits after the decimal point, with the
value frozen (but digits still consumed) once it would overflow. -/
def leadingFractionCh : List Char → Nat → Nat → Bool → Nat × Nat × List Char
  | [], x, scale, _ => (x, scale, [])
  | c :: cs, x, scale, overflow =>
    if isDigitChar c then
      if overflow then leadingFractionCh cs x scale true
      else if x > (2 ^ 63 - 1) / 10 then leadingFractionCh cs x scale true
      else
        let y := x * 10 + digitVal c
        if y > 2 ^ 63 then leadingFractionCh cs x scale true
        else leadingFractionCh cs y (scale * 10) false
    else (x, scale, c :: cs)

/-- Go `time`'s `unitMap`: nanoseconds per duration unit. -/
def unitNanos (u : List Char) : Option Nat :=
  if u = "ns".toList then some 1
  else if u = "us".toList then some 1000
  else if u = ['µ', 's'] then some 1000
  else if u = ['μ', 's'] then some 1000
  else if u = "ms".toList then some 1000000
  else if u = "s".toList then some 1000000000
  else if u = "m".toList then some 60000000000
  else if u = "h".toList then some 3600000000000
  else none

/-- One `([0-9]*(\.[0-9]*)?[a-z]+)` group of `time.ParseDuration`, then
the rest; `d` is the `uint64` accumulator.  The fuel only bounds the
recursion; each iteration consumes at least one character, so `s.length`
fuel is always enough. -/
def parseDurationLoop : Nat → List Char → Nat → Option Nat
  | 0, _, _ => none
  | _, [], d => some d
  | fuel + 1, s, d =>
    match s with
    | [] => some d
    | c :: _ =>
      if ¬(isDigitChar c ∨ c = '.') then none
      else
        match leadingIntCh s 0 with
        | none => none
        | some (v, s1) =>
          let pre : Bool := s1.length != s.length
          let (f, scale, s2, post) :=
            match s1 with
            | '.' :: tl =>
              let r := leadingFractionCh tl 0 1 false
              (r.1, r.2.1, r.2.2, (r.2.2.length != tl.length : Bool))
            | _ => (0, 1, s1, false)
          if !pre && !post then none
          else
            let u := s2.takeWhile (fun ch => ¬(isDigitChar ch ∨ ch = '.'))
            let s3 := s2.dropWhile (fun ch => ¬(isDigitChar ch ∨ ch = '.'))
            if u.length = 0 then none
            else
              match unitNanos u with
              | none => none
              | some unit =>
                if v > 2 ^ 63 / unit then none
                else
                  let v2 := v * unit
                  let v3 := if f > 0 then v2 + f * unit / scale else v2
                  if f > 0 ∧ v3 > 2 ^ 63 then none
                  else
                    let d2 := d + v3
                    if d2 > 2 ^ 63 then none
                    else parseDurationLoop fuel s3 d2

/-- Model of Go `time.ParseDuration`: the result is int64 nanoseconds.
`none` is Go's `invalid duration` (or overflow) error. -/
def parseDuration (str : String) : Option Int :=
  let cs := str.toList
  let (neg, cs1) :=
    match cs with
    | '-' :: r => (true, r)
    | '+' :: r => (false, r)
    | r => (false, r)
  if cs1 = ['0'] then some 0
  else if cs1 = [] then none
  else
    match parseDurationLoop (cs1.length + 1) cs1 0 with
    | none => none
    | some d =>
      if neg then some (-(d : Int))
      else if d > 2 ^ 63 - 1 then none
      else some (d : Int)

/-- How far `handlerAgg` (commands.go:167-191) gets before its infinite
polling loop.  `panicNonPositiveTicker` is the `time.NewTicker` panic
(`"non-positive interval for NewTicker"`) raised for a parsed duration
`d ≤ 0` — the ticker is created before the loop, so no cycle runs, but
the handler panics instead of returning an error. -/
inductive AggStart where
  /-- `"agg command requires a time_between_reqs argument"` -/
  | errNoArgs
  /-- `"invalid duration: ..."` returned to the caller -/
  | errInvalidDuration
  /-- `time.NewTicker` panics: process crash, not an error return -/
  | panicNonPositiveTicker
  /-- the `for ; ; <-ticker.C` loop is entered with interval `d` ns -/
  | entersLoop (d : Int)
deriving Repr, DecidableEq

/-- The argument-validation phase of `handlerAgg` (commands.go:167-185). -/
def handlerAggStart (args : List String) : AggStart :=
  match args with
  | [] => .errNoArgs
  | a :: _ =>
    match parseDuration a with
    | none => .errInvalidDuration
    | some d => if d ≤ 0 then .panicNonPositiveTicker else .entersLoop d

/-! ## Model of `fmt.Sscan` of one `int`, and `handlerBrowse`

`handlerBrowse` (commands.go:439-454) parses its optional first argument
with `fmt.Sscan(arg, &limit)`.  With the default verb the scanner skips
leading spaces, accepts an optional sign, recognises `0b`/`0o`/`0x`/
leading-`0` (octal) prefixes, stops at the first character outside the
digit set (trailing text is not an error for `Sscan`), and converts via
`strconv.ParseInt(_, 0, 64)`, so values outside int64 fail with a range
error.  Go's underscore digit separators are not modelled (no claim
involves them). -/

def isHexDigitChar (c : Char) : Bool :=
  isDigitChar c || ('a' ≤ c && c ≤ 'f') || ('A' ≤ c && c ≤ 'F')

def hexVal (c : Char) : Nat :=
  if isDigitChar c then digitVal c
  else if 'a' ≤ c && c ≤ 'f' then c.toNat - 'a'.toNat + 10
  else c.toNat - 'A'.toNat + 10

def digitsValBase (b : Nat) (l : List Char) : Nat :=
  l.foldl (fun a c => a * b + hexVal c) 0

/-- Magnitude scan after the optional sign: returns the value, or `none`
when the token is not a valid integer. -/
def scanIntMagnitude (cs : List Char) : Option Nat :=
  match cs with
  | '0' :: b :: rest =>
    if b = 'b' ∨ b = 'B' then
      let ds := rest.takeWhile (fun c => c = '0' ∨ c = '1')
      if ds.isEmpty then none else some (digitsValBase 2 ds)
    else if b = 'o' ∨ b = 'O' then
      let ds := rest.takeWhile (fun c => '0' ≤ c && c ≤ '7')
      if ds.isEmpty then none else some (digitsValBase 8 ds)
    else if b = 'x' ∨ b = 'X' then
      let ds := rest.takeWhile isHexDigitChar
      if ds.isEmpty then none else some (digitsValBase 16 ds)
    else
      some (digitsValBase 8 ((b :: rest).takeWhile (fun c => '0' ≤ c && c ≤ '7')))
  | '0' :: [] => some 0
  | _ =>
    let ds := cs.takeWhile isDigitChar
    if ds.isEmpty then none else some (digitsVal ds)

/-- Model of `fmt.Sscan(s, &limit)` for an `int`: `none` is a scan error
(no integer, or out of int64 range). -/
def sscanInt (s : String) : Option Int :=
  let cs := s.toList.dropWhile (fun c => c = ' ' ∨ c = '\t')
  let (neg, cs1) :=
    match cs with
    | '-' :: r => (true, r)
    | '+' :: r => (false, r)
    | r => (false, r)
  match scanIntMagnitude cs1 with
  | none => none
  | some m =>
    if neg then
      if (m : Int) ≤ 2 ^ 63 then some (-(m : Int)) else none
    else if (m : Int) ≤ 2 ^ 63 - 1 then some (m : Int)
    else none

/-- Go's `int32(limit)` conversion: two's-complement truncation. -/
def int32cast (n : Int) : Int := (n + 2 ^ 31) % 2 ^ 32 - 2 ^ 31

/-- What `handlerBrowse` does up to (and including) the limit it passes
to `GetPostsForUser`. -/
inductive BrowseOutcome where
  /-- `"invalid limit: ..."`: the handler returns before fetching posts -/
  | errInvalidLimit
  /-- `GetPostsForUser` is called with this `int32` limit -/
  | queried (limit : Int)
deriving Repr, DecidableEq

/-- The limit logic of `handlerBrowse` (commands.go:439-454): default 2,
else the `Sscan`ned integer, truncated to `int32` at the query call. -/
def handlerBrowse (args : List String) : BrowseOutcome :=
  match args with
  | [] => .queried (int32cast 2)
  | a :: _ =>
    match sscanInt a with
    | none => .errInvalidLimit
    | some n => .queried (int32cast n)

/-! ## Data model and store operations

The `internal/database` package (sqlc-generated queries and their SQL)
is part of the repository but not under `src/`; its operations are
modelled from the spec where marked.  Timestamps are Unix seconds as
`Int`; a `Feed`'s `lastFetchedAt` is `none` when the feed was never
fetched (SQL `NULL`).  Post/feed `id`, `created_at` and `updated_at` are
freshly generated values (`uuid.New()`, `time.Now()`) that no claim
depends on; feeds carry an abstract numeric `id` for identity. -/

structure Feed where
  id : Nat
  name : String
  url : String
  lastFetchedAt : Option Int
deriving Repr, DecidableEq

structure Post where
  title : String
  url : String
  description : Option String
  publishedAt : Option GoTime
  feedId : Nat
deriving Repr, DecidableEq

/-- One `<item>` of a fetched feed document, as `fetchFeed` returns it. -/
structure RSSItem where
  title : String
  link : String
  description : String
  pubDate : String
deriving Repr, DecidableEq

/-- A fetched feed document (`rssFeed.Channel.Item`). -/
structure RSSFeed where
  items : List RSSItem
deriving Repr, DecidableEq

structure DB where
  feeds : List Feed
  posts : List Post
deriving Repr, DecidableEq

/-- Modelled from the spec: the Feed Source Client (`fetchFeed`, a
repository file not under `src/`): a network fetch plus parse that either
yields a feed document or fails with `FetchError`/`ParseError`.  The
network is external, so the pipeline receives the outcome per URL as an
environment function. -/
inductive FetchRes where
  | ok (rss : RSSFeed)
  | fetchErr
  | parseErr
deriving Repr, DecidableEq

/-- `none` is strictly staler than any timestamp; otherwise compare. -/
def staleLT : Option Int → Option Int → Bool
  | none, none => false
  | none, some _ => true
  | some _, none => false
  | some a, some b => a < b

/-- Modelled from the spec: `GetNextFeedToFetch` (internal/database, not
under `src/`): "returns the single Feed across the whole collection with
the oldest (or null) `last_fetched_at`, i.e., round-robin-by-staleness
with ties broken by stable insertion order.  Fails with `NoFeedsError` if
the collection is empty" — `none` models `NoFeedsError`. -/
def getNextFeedToFetch : List Feed → Option Feed
  | [] => none
  | f :: rest =>
    match getNextFeedToFetch rest with
    | none => some f
    | some g => some (if staleLT g.lastFetchedAt f.lastFetchedAt then g else f)

/-- Modelled from the spec: `MarkFeedFetched` (internal/database, not
under `src/`): "Record a 'fetch attempted now' timestamp on the Feed",
i.e. set the selected feed's `last_fetched_at` to now. -/
def markFeedFetched (now : Int) (fid : Nat) (feeds : List Feed) : List Feed :=
  feeds.map (fun f => if f.id = fid then { f with lastFetchedAt := some now } else f)

/-- Result of one `CreatePost` call. -/
inductive CreateRes where
  /-- row inserted; the new post table -/
  | ok (posts : List Post)
  /-- unique-key violation on the post URL (pq error 23505) -/
  | dup
  /-- any other persistence failure -/
  | failed
deriving Repr, DecidableEq

/-- Modelled from the spec: `CreatePost` (internal/database, not under
`src/`): "create post(...) -> Post | DuplicateKeyError" with the item URL
"unique across all posts".  `oracle` injects the spec's other, non-unique
"PersistenceError" failures per URL, so that per-item isolation can be
stated; `oracle = fun x => false` is a store that never fails. -/
def createPost (oracle : String → Bool) (p : Post) (posts : List Post) : CreateRes :=
  if posts.any (fun q => q.url = p.url) then .dup
  else if oracle p.url then .failed
  else .ok (posts ++ [p])

/-- The post built from one item in the loop body of `scrapeFeeds`
(commands.go:217-245): an unparseable or empty `PubDate` leaves
`publishedAt` absent, an empty description becomes absent. -/
def mkPost (fid : Nat) (item : RSSItem) : Post :=
  { title := item.title
    url := item.link
    description := if item.description ≠ "" then some item.description else none
    publishedAt := if item.pubDate ≠ "" then parsePublishedDate item.pubDate else none
    feedId := fid }

/-- A line `scrapeFeeds` writes to stderr for one item. -/
inductive Warning where
  /-- `"Warning: couldn't parse date %q: ..."` -/
  | badDate (pubDate : String)
  /-- `"Warning: couldn't save post %q: ..."` -/
  | saveFailed (title : String)
deriving Repr, DecidableEq

/-- The item loop of `scrapeFeeds` (commands.go:217-255): each item is
handled independently; a duplicate URL is skipped silently, any other
save failure is logged and the loop continues. -/
def processItems (oracle : String → Bool) (fid : Nat) :
    List Post → List Warning → List RSSItem → List Post × List Warning
  | posts, ws, [] => (posts, ws)
  | posts, ws, item :: rest =>
    let ws1 :=
      if item.pubDate ≠ "" ∧ parsePublishedDate item.pubDate = none then
        ws ++ [Warning.badDate item.pubDate]
      else ws
    match createPost oracle (mkPost fid item) posts with
    | .ok posts2 => processItems oracle fid posts2 ws1 rest
    | .dup => processItems oracle fid posts ws1 rest
    | .failed => processItems oracle fid posts (ws1 ++ [Warning.saveFailed item.title]) rest

/-- Outcome of one `scrapeFeeds` call. -/
inductive ScrapeOutcome where
  | success
  /-- `"couldn't get next feed to fetch: ..."` (the spec's `NoFeedsError`) -/
  | errNoFeeds
  /-- `"couldn't fetch feed: ..."` (the spec's `FetchError`/`ParseError`) -/
  | errFetch
deriving Repr, DecidableEq

structure ScrapeResult where
  db : DB
  warnings : List Warning
  outcome : ScrapeOutcome
deriving Repr, DecidableEq

/-- The single-feed part of `scrapeFeeds` (commands.go:201-258), the
spec's Ingestion Pipeline: mark the feed fetched first, then fetch; a
fetch/parse failure ends the cycle with the staleness update already
recorded and no posts written; otherwise persist each item. -/
def ingestFeed (oracle : String → Bool) (now : Int) (fetch : String → FetchRes)
    (feed : Feed) (db : DB) : ScrapeResult :=
  let feeds2 := markFeedFetched now feed.id db.feeds
  match fetch feed.url with
  | .fetchErr => ⟨⟨feeds2, db.posts⟩, [], .errFetch⟩
  | .parseErr => ⟨⟨feeds2, db.posts⟩, [], .errFetch⟩
  | .ok rss =>
    let r := processItems oracle feed.id db.posts [] rss.items
    ⟨⟨feeds2, r.1⟩, r.2, .success⟩

/-- `scrapeFeeds` (commands.go:194-259): select the stalest feed, then
run the Ingestion Pipeline on it. -/
def scrapeFeeds (oracle : String → Bool) (now : Int) (fetch : String → FetchRes)
    (db : DB) : ScrapeResult :=
  match getNextFeedToFetch db.feeds with
  | none => ⟨db, [], .errNoFeeds⟩
  | some feed => ingestFeed oracle now fetch feed db

/-! ## The poller (`handlerAgg`'s loop) and whole-system steps -/

/-- State of the `for ; ; <-ticker.C` loop in `handlerAgg`
(commands.go:184-190): the store, the errors printed to stderr so far,
and how many cycles have run. -/
structure AggState where
  db : DB
  errLog : List ScrapeOutcome
  cycles : Nat
deriving Repr, DecidableEq

/-- One loop iteration of `handlerAgg`: run `scrapeFeeds`; an error is
written to stderr and the loop continues. -/
def aggStep (oracle : String → Bool) (fetchAt : Nat → String → FetchRes)
    (clock : Nat → Int) (k : Nat) (s : AggState) : AggState :=
  let r := scrapeFeeds oracle (clock k) (fetchAt k) s.db
  { db := r.db
    errLog := s.errLog ++ (match r.outcome with
      | .success => []
      | e => [e])
    cycles := s.cycles + 1 }

/-- `n` iterations of the (unbounded) polling loop, starting at tick
index `k`.  The environment may change between ticks: `fetchAt k` and
`clock k` are the network and wall clock seen by cycle `k`. -/
def aggLoop (oracle : String → Bool) (fetchAt : Nat → String → FetchRes)
    (clock : Nat → Int) : Nat → Nat → AggState → AggState
  | _, 0, s => s
  | k, n + 1, s => aggLoop oracle fetchAt clock (k + 1) n (aggStep oracle fetchAt clock k s)

/-- Start time of cycle `k` for interval `d`: the loop body runs once
immediately (before the first ticker wait) and then once per tick. -/
def tickTime (d : Int) (k : Nat) : Int := (k : Int) * d

/-- One externally-invoked operation of the system, as far as the feeds
table is concerned: an aggregation cycle (`scrapeFeeds`), `handlerAddFeed`
(`CreateFeed` inserts with `last_fetched_at` NULL; duplicate URLs are
rejected by the unique key), or any of the remaining handlers
(login, register, users, feeds, follow, following, unfollow, browse),
none of which writes to the feeds table. -/
inductive SysOp where
  | cycle (oracle : String → Bool) (now : Int) (fetch : String → FetchRes)
  | addFeed (f : Feed)
  | readOnly
deriving Inhabited

def applyOp : SysOp → DB → DB
  | .cycle oracle now fetch, db => (scrapeFeeds oracle now fetch db).db
  | .addFeed f, db =>
    if db.feeds.any (fun g => g.url = f.url) then db
    else ⟨db.feeds ++ [{ f with lastFetchedAt := none }], db.posts⟩
  | .readOnly, db => db

/-- The wall clock an operation carries is not behind any recorded fetch
time (monotone real time). -/
def ClockOK : SysOp → DB → Prop
  | .cycle _ now _, db =>
    ∀ f ∈ db.feeds, ∀ t : Int, f.lastFetchedAt = some t → t ≤ now
  | _, _ => True

/-- Per-feed staleness evolution: once recorded, never null again and
never decreasing. -/
def FeedMono (a b : Feed) : Prop :=
  ∀ t : Int, a.lastFetchedAt = some t → ∃ t2 : Int, b.lastFetchedAt = some t2 ∧ t ≤ t2

def postUrls (l : List Post) : List String := l.map Post.url

/-! ## Store lemmas -/

theorem createPost_ok_iff {oracle : String → Bool} {p : Post} {posts posts2 : List Post} :
    createPost oracle p posts = .ok posts2 ↔
      (∀ q ∈ posts, q.url ≠ p.url) ∧ oracle p.url = false ∧ posts2 = posts ++ [p] := by
  unfold createPost
  by_cases h1 : posts.any (fun q => q.url = p.url)
  · simp only [h1, if_true]
    simp only [List.any_eq_true, decide_eq_true_eq] at h1
    obtain ⟨q, hq, he⟩ := h1
    constructor
    · intro h; cases h
    · rintro ⟨hall, -, -⟩; exact absurd he (hall q hq)
  · simp only [h1]
    simp only [List.any_eq_true, decide_eq_true_eq, not_exists] at h1
    by_cases h2 : oracle p.url
    · simp only [h2, if_true, if_false]
      constructor
      · intro h; cases h
      · rintro ⟨-, hfalse, -⟩; simp [h2] at hfalse
    · simp only [h2, if_false, Bool.false_eq_true]
      constructor
      · intro h; cases h
        refine ⟨fun q hq => ?_, by simp [h2], rfl⟩
        intro he
        exact (h1 q) ⟨hq, he⟩
      · rintro ⟨-, -, rfl⟩; rfl

theorem createPost_dup_iff {oracle : String → Bool} {p : Post} {posts : List Post} :
    createPost oracle p posts = .dup ↔ ∃ q ∈ posts, q.url = p.url := by
  unfold createPost
  by_cases h1 : posts.any (fun q => q.url = p.url)
  · simp only [h1, if_true]
    simp only [List.any_eq_true, decide_eq_true_eq] at h1
    simpa using h1
  · simp only [h1]
    simp only [List.any_eq_true, decide_eq_true_eq, not_exists] at h1
    by_cases h2 : oracle p.url <;> simp only [h2, if_true, if_false, Bool.false_eq_true]
    · constructor
      · intro h; cases h
      · rintro ⟨q, hq, he⟩; exact absurd ⟨hq, he⟩ (h1 q)
    · constructor
      · intro h; cases h
      · rintro ⟨q, hq, he⟩; exact absurd ⟨hq, he⟩ (h1 q)

theorem createPost_failed_iff {oracle : String → Bool} {p : Post} {posts : List Post} :
    createPost oracle p posts = .failed ↔
      (∀ q ∈ posts, q.url ≠ p.url) ∧ oracle p.url = true := by
  unfold createPost
  by_cases h1 : posts.any (fun q => q.url = p.url)
  · simp only [h1, if_true]
    simp only [List.any_eq_true, decide_eq_true_eq] at h1
    obtain ⟨q, hq, he⟩ := h1
    constructor
    · intro h; cases h
    · rintro ⟨hall, -⟩; exact absurd he (hall q hq)
  · rw [if_neg h1]
    simp only [List.any_eq_true, decide_eq_true_eq, not_exists] at h1
    by_cases h2 : oracle p.url
    · rw [if_pos h2]
      exact ⟨fun _ => ⟨fun q hq he => (h1 q) ⟨hq, he⟩, h2⟩, fun _ => rfl⟩
    · rw [if_neg h2]
      constructor
      · intro h; cases h
      · rintro ⟨-, h⟩; exact absurd h h2

/-! ## Item-loop lemmas -/

theorem processItems_sub {oracle : String → Bool} {fid : Nat} {p : Post} :
    ∀ (items : List RSSItem) (posts : List Post) (ws : List Warning),
      p ∈ posts → p ∈ (processItems oracle fid posts ws items).1 := by
  intro items
  induction items with
  | nil => intro posts ws h; simpa [processItems] using h
  | cons item rest ih =>
    intro posts ws h
    rw [processItems]
    rcases hc : createPost oracle (mkPost fid item) posts with posts2 | _ | _
    · rcases createPost_ok_iff.mp hc with ⟨-, -, rfl⟩
      exact ih _ _ (List.mem_append_left _ h)
    · exact ih _ _ h
    · exact ih _ _ h

theorem processItems_covers {oracle : String → Bool} {fid : Nat} :
    ∀ (items : List RSSItem) (posts : List Post) (ws : List Warning),
      ∀ item ∈ items,
        (∃ q ∈ (processItems oracle fid posts ws items).1, q.url = item.link)
          ∨ oracle item.link = true := by
  intro items
  induction items with
  | nil => intro posts ws item h; cases h
  | cons hd rest ih =>
    intro posts ws item hmem
    rw [processItems]
    rcases List.mem_cons.mp hmem with rfl | hmem2
    · rcases hc : createPost oracle (mkPost fid item) posts with posts2 | _ | _
      · rcases createPost_ok_iff.mp hc with ⟨-, -, rfl⟩
        left
        exact ⟨mkPost fid item,
          processItems_sub rest _ _ (List.mem_append_right _ (List.mem_singleton_self _)), rfl⟩
      · rcases createPost_dup_iff.mp hc with ⟨q, hq, he⟩
        left
        exact ⟨q, processItems_sub rest _ _ hq, he⟩
      · rcases createPost_failed_iff.mp hc with ⟨-, h2⟩
        right
        exact h2
    · rcases hc : createPost oracle (mkPost fid hd) posts with posts2 | _ | _ <;>
        exact ih _ _ item hmem2

theorem processItems_fixed {oracle : String → Bool} {fid : Nat} :
    ∀ (items : List RSSItem) (posts : List Post) (ws : List Warning),
      (∀ item ∈ items, (∃ q ∈ posts, q.url = item.link) ∨ oracle item.link = true) →
      (processItems oracle fid posts ws items).1 = posts := by
  intro items
  induction items with
  | nil => intro posts ws _; simp [processItems]
  | cons item rest ih =>
    intro posts ws h
    rw [processItems]
    rcases h item (List.mem_cons_self _ _) with hin | hov
    · have hdup : createPost oracle (mkPost fid item) posts = .dup :=
        createPost_dup_iff.mpr (by simpa [mkPost] using hin)
      rw [hdup]
      exact ih _ _ (fun i hi => h i (List.mem_cons_of_mem _ hi))
    · rcases hc : createPost oracle (mkPost fid item) posts with posts2 | _ | _
      · rcases createPost_ok_iff.mp hc with ⟨-, hfalse, -⟩
        simp [mkPost] at hfalse
        rw [hfalse] at hov; cases hov
      · exact ih _ _ (fun i hi => h i (List.mem_cons_of_mem _ hi))
      · exact ih _ _ (fun i hi => h i (List.mem_cons_of_mem _ hi))

theorem processItems_nodup {oracle : String → Bool} {fid : Nat} :
    ∀ (items : List RSSItem) (posts : List Post) (ws : List Warning),
      (postUrls posts).Nodup →
      (postUrls (processItems oracle fid posts ws items).1).Nodup := by
  intro items
  induction items with
  | nil => intro posts ws h; simpa [processItems] using h
  | cons item rest ih =>
    intro posts ws h
    rw [processItems]
    rcases hc : createPost oracle (mkPost fid item) posts with posts2 | _ | _
    · rcases createPost_ok_iff.mp hc with ⟨habs, -, rfl⟩
      refine ih _ _ ?_
      unfold postUrls
      rw [List.map_append]
      refine List.Nodup.append h (by simp) ?_
      intro u hu hu2
      simp only [postUrls, List.map_singleton, List.mem_singleton] at hu2
      subst hu2
      rcases List.mem_map.mp hu with ⟨q, hq, hqe⟩
      exact habs q hq hqe
    · exact ih _ _ h
    · exact ih _ _ h

/-! ## Pipeline, selector and staleness lemmas -/

theorem ingestFeed_feeds (oracle : String → Bool) (now : Int) (fetch : String → FetchRes)
    (feed : Feed) (db : DB) :
    (ingestFeed oracle now fetch feed db).db.feeds = markFeedFetched now feed.id db.feeds := by
  rcases hf : fetch feed.url with rss | _ | _ <;> simp [ingestFeed, hf]

theorem markFeedFetched_mem {now : Int} {fid : Nat} {feeds : List Feed} {g : Feed}
    (hg : g ∈ markFeedFetched now fid feeds) (hid : g.id = fid) :
    g.lastFetchedAt = some now := by
  unfold markFeedFetched at hg
  obtain ⟨f, hf, heq⟩ := List.mem_map.mp hg
  subst heq
  by_cases h : f.id = fid
  · simp [h]
  · simp only [if_neg h] at hid ⊢
    exact absurd hid h

theorem scrapeFeeds_no_feeds (oracle : String → Bool) (now : Int) (fetch : String → FetchRes)
    (db : DB) (h : db.feeds = []) :
    scrapeFeeds oracle now fetch db = ⟨db, [], .errNoFeeds⟩ := by
  unfold scrapeFeeds
  rw [h]
  rfl

theorem staleLT_irrefl (a : Option Int) : staleLT a a = false := by
  cases a <;> simp [staleLT]

theorem staleLT_asymm {a b : Option Int} (h : staleLT a b = true) : staleLT b a = false := by
  cases a <;> cases b <;> simp_all [staleLT]
  omega

theorem staleLT_notlt_trans {a b c : Option Int}
    (h1 : staleLT a b = false) (h2 : staleLT b c = false) : staleLT a c = false := by
  cases a <;> cases b <;> cases c <;> simp_all [staleLT]
  omega

theorem getNextFeedToFetch_eq_none {feeds : List Feed} :
    getNextFeedToFetch feeds = none ↔ feeds = [] := by
  cases feeds with
  | nil => simp [getNextFeedToFetch]
  | cons f rest =>
    simp only [getNextFeedToFetch]
    cases getNextFeedToFetch rest <;> simp

theorem getNextFeedToFetch_min {feeds : List Feed} {f : Feed}
    (h : getNextFeedToFetch feeds = some f) :
    f ∈ feeds ∧ ∀ g ∈ feeds, staleLT g.lastFetchedAt f.lastFetchedAt = false := by
  induction feeds generalizing f with
  | nil => cases h
  | cons f0 rest ih =>
    rw [getNextFeedToFetch] at h
    rcases hr : getNextFeedToFetch rest with _ | g
    · rw [hr] at h
      cases h
      have hrest : rest = [] := getNextFeedToFetch_eq_none.mp hr
      subst hrest
      refine ⟨List.mem_singleton_self _, ?_⟩
      intro g hg
      rcases List.mem_singleton.mp hg with rfl
      exact staleLT_irrefl _
    · rw [hr] at h
      dsimp only at h
      obtain ⟨hgmem, hgmin⟩ := ih hr
      by_cases hlt : staleLT g.lastFetchedAt f0.lastFetchedAt
      · rw [if_pos hlt] at h
        cases h
        refine ⟨List.mem_cons_of_mem _ hgmem, ?_⟩
        intro x hx
        rcases List.mem_cons.mp hx with rfl | hx2
        · exact staleLT_asymm hlt
        · exact hgmin x hx2
      · rw [if_neg hlt] at h
        cases h
        refine ⟨List.mem_cons_self _ _, ?_⟩
        intro x hx
        rcases List.mem_cons.mp hx with rfl | hx2
        · exact staleLT_irrefl _
        · exact staleLT_notlt_trans (hgmin x hx2) (Bool.eq_false_iff.mpr hlt)

/-! ## First-success characterisation of the format loop -/

theorem tryFormats_eq_none_iff (v : List Char) :
    ∀ fs : List (List Chunk), tryFormats fs v = none ↔ ∀ f ∈ fs, goTimeParse f v = none := by
  intro fs
  induction fs with
  | nil => simp [tryFormats]
  | cons f0 rest ih =>
    rw [tryFormats]
    rcases h0 : goTimeParse f0 v with _ | u
    · simp only [List.mem_cons]
      constructor
      · intro h
        intro f hf
        rcases hf with rfl | hf2
        · exact h0
        · exact (ih.mp h) f hf2
      · intro h
        exact ih.mpr (fun f hf => h f (Or.inr hf))
    · constructor
      · intro h; cases h
      · intro h
        exact absurd h0 (by rw [h f0 (List.mem_cons_self _ _)]; intro he; cases he)

theorem tryFormats_eq_some_iff (v : List Char) (t : GoTime) :
    ∀ fs : List (List Chunk), tryFormats fs v = some t ↔
      ∃ fs1 f fs2, fs = fs1 ++ f :: fs2 ∧ goTimeParse f v = some t ∧
        ∀ g ∈ fs1, goTimeParse g v = none := by
  intro fs
  induction fs with
  | nil =>
    simp only [tryFormats]
    constructor
    · intro h; cases h
    · rintro ⟨fs1, f, fs2, habs, -, -⟩
      exact absurd (List.append_eq_nil.mp habs.symm).2 (List.cons_ne_nil f fs2)
  | cons f0 rest ih =>
    rw [tryFormats]
    rcases h0 : goTimeParse f0 v with _ | u
    · constructor
      · intro h
        obtain ⟨fs1, f, fs2, heq, hsome, hall⟩ := ih.mp h
        refine ⟨f0 :: fs1, f, fs2, by rw [heq]; rfl, hsome, ?_⟩
        intro g hg
        rcases List.mem_cons.mp hg with rfl | hg2
        · exact h0
        · exact hall g hg2
      · rintro ⟨fs1, f, fs2, heq, hsome, hall⟩
        cases fs1 with
        | nil =>
          simp only [List.nil_append] at heq
          cases heq
          rw [h0] at hsome
          cases hsome
        | cons g0 fs1t =>
          simp only [List.cons_append, List.cons.injEq] at heq
          obtain ⟨rfl, hrest⟩ := heq
          exact ih.mpr ⟨fs1t, f, fs2, hrest, hsome,
            fun g hg => hall g (List.mem_cons_of_mem _ hg)⟩
    · constructor
      · intro h
        cases h
        exact ⟨[], f0, rest, rfl, h0, fun g hg => absurd hg (List.not_mem_nil g)⟩
      · rintro ⟨fs1, f, fs2, heq, hsome, hall⟩
        cases fs1 with
        | nil =>
          simp only [List.nil_append] at heq
          cases heq
          rw [h0] at hsome
          exact hsome
        | cons g0 fs1t =>
          simp only [List.cons_append, List.cons.injEq] at heq
          obtain ⟨rfl, -⟩ := heq
          have := hall f0 (List.mem_cons_self _ _)
          rw [h0] at this
          cases this

end Gator

namespace Gator

/-! ## Concrete fixtures used by scenarios and witnesses -/

/-- A store that never fails except on duplicates. -/
def noFail : String → Bool := fun _ => false

def itemBadDate : RSSItem :=
  ⟨"bad", "http://x/bad", "", "not-a-date"⟩

def itemGoodDate : RSSItem :=
  ⟨"good", "http://x/good", "d", "Mon, 02 Jan 2006 15:04:05 -0700"⟩

def docMixed : RSSFeed := ⟨[itemBadDate, itemGoodDate]⟩

def fetchMixed : String → FetchRes := fun _ => .ok docMixed

def feedX : Feed := ⟨0, "f0", "http://x/feed", none⟩

def dbX : DB := ⟨[feedX], []⟩

/-- A store where saving `http://x/bad` fails with a non-duplicate error. -/
def failBad : String → Bool := fun u => u == "http://x/bad"

end Gator

namespace Gator

/-- C1: re-running the Ingestion Pipeline (the per-feed part of
`scrapeFeeds`) against an unchanged feed document yields the same post set
as running it once — the second run inserts nothing for a link that is
already present — and the post-URL set stays duplicate-free; consequently
the same holds for `scrapeFeeds` itself whenever the selector picks the
same feed both times. -/
theorem scrape_twice_same_posts (oracle : String → Bool) (now1 now2 : Int)
    (fetch : String → FetchRes) (feed : Feed) (db : DB)
    (hnd : (postUrls db.posts).Nodup) :
    (ingestFeed oracle now2 fetch feed (ingestFeed oracle now1 fetch feed db).db).db.posts
      = (ingestFeed oracle now1 fetch feed db).db.posts
    ∧ (postUrls (ingestFeed oracle now1 fetch feed db).db.posts).Nodup
    ∧ (getNextFeedToFetch db.feeds = some feed →
       getNextFeedToFetch (scrapeFeeds oracle now1 fetch db).db.feeds = some feed →
       (scrapeFeeds oracle now2 fetch (scrapeFeeds oracle now1 fetch db).db).db.posts
         = (scrapeFeeds oracle now1 fetch db).db.posts) := by
  have hmain :
      (ingestFeed oracle now2 fetch feed (ingestFeed oracle now1 fetch feed db).db).db.posts
        = (ingestFeed oracle now1 fetch feed db).db.posts
      ∧ (postUrls (ingestFeed oracle now1 fetch feed db).db.posts).Nodup := by
    rcases hf : fetch feed.url with rss | _ | _
    · simp only [ingestFeed, hf]
      constructor
      · refine processItems_fixed rss.items _ [] ?_
        intro item hitem
        have := @processItems_covers oracle feed.id rss.items db.posts [] item hitem
        simpa [mkPost] using this
      · exact processItems_nodup rss.items _ [] hnd
    · exact ⟨by simp [ingestFeed, hf], by simpa [ingestFeed, hf] using hnd⟩
    · exact ⟨by simp [ingestFeed, hf], by simpa [ingestFeed, hf] using hnd⟩
  refine ⟨hmain.1, hmain.2, ?_⟩
  intro hsel1 hsel2
  have h1 : scrapeFeeds oracle now1 fetch db = ingestFeed oracle now1 fetch feed db := by
    unfold scrapeFeeds
    rw [hsel1]
  rw [h1] at hsel2 ⊢
  have h2 : scrapeFeeds oracle now2 fetch (ingestFeed oracle now1 fetch feed db).db
      = ingestFeed oracle now2 fetch feed (ingestFeed oracle now1 fetch feed db).db := by
    unfold scrapeFeeds
    rw [hsel2]
  rw [h2]
  exact hmain.1

/-- C1 witness: a concrete one-feed database, ingested twice. -/
theorem scrape_twice_same_posts_witness :
    (ingestFeed noFail 6 fetchMixed feedX (ingestFeed noFail 5 fetchMixed feedX dbX).db).db.posts
      = (ingestFeed noFail 5 fetchMixed feedX dbX).db.posts
    ∧ (postUrls (ingestFeed noFail 5 fetchMixed feedX dbX).db.posts).Nodup :=
  ⟨(scrape_twice_same_posts noFail 5 6 fetchMixed feedX dbX (by decide)).1,
   (scrape_twice_same_posts noFail 5 6 fetchMixed feedX dbX (by decide)).2.1⟩

/-- C2: item-level failures never fail an ingestion cycle: whenever the
fetch succeeds the cycle reports success no matter what the items look
like or how the store behaves on them; concretely, a document with one
malformed-date item and one well-formed-date item yields two persisted
posts (absent and normalized timestamps respectively) plus a warning for
the malformed date, and a non-duplicate save failure on one item is
logged as a warning while the remaining item is still persisted. -/
theorem scrape_item_isolation :
    (∀ (oracle : String → Bool) (now : Int) (fetch : String → FetchRes)
        (feed : Feed) (db : DB) (rss : RSSFeed),
      fetch feed.url = .ok rss → (ingestFeed oracle now fetch feed db).outcome = .success)
    ∧ (ingestFeed noFail 5 fetchMixed feedX dbX).outcome = .success
    ∧ (ingestFeed noFail 5 fetchMixed feedX dbX).db.posts.map Post.publishedAt
        = [none, some ⟨2006, 1, 2, 15, 4, 5, 0, -25200⟩]
    ∧ (ingestFeed noFail 5 fetchMixed feedX dbX).db.posts.map Post.url
        = ["http://x/bad", "http://x/good"]
    ∧ (ingestFeed noFail 5 fetchMixed feedX dbX).warnings = [.badDate "not-a-date"]
    ∧ (ingestFeed failBad 5 fetchMixed feedX dbX).outcome = .success
    ∧ (ingestFeed failBad 5 fetchMixed feedX dbX).db.posts.map Post.url
        = ["http://x/good"]
    ∧ (ingestFeed failBad 5 fetchMixed feedX dbX).warnings
        = [.badDate "not-a-date", .saveFailed "bad"] := by
  refine ⟨?_, by decide, by decide, by decide, by decide, by decide, by decide, by decide⟩
  intro oracle now fetch feed db rss hf
  simp [ingestFeed, hf]

/-- C2 witness: the universally quantified part applied to the concrete
mixed-document fixture. -/
theorem scrape_item_isolation_witness :
    (ingestFeed noFail 5 fetchMixed feedX dbX).outcome = .success :=
  scrape_item_isolation.1 noFail 5 fetchMixed feedX dbX docMixed rfl

/-- C3: `scrapeFeeds` records the staleness timestamp before attempting
the fetch, so on a fetch (or parse) failure the cycle returns the error,
no posts are written, and the selected feed's `last_fetched_at` is
nevertheless already updated to now. -/
theorem scrape_fetch_failure (oracle : String → Bool) (now : Int)
    (fetch : String → FetchRes) (db : DB) (feed : Feed)
    (hsel : getNextFeedToFetch db.feeds = some feed)
    (hfail : fetch feed.url = .fetchErr ∨ fetch feed.url = .parseErr) :
    (scrapeFeeds oracle now fetch db).outcome = .errFetch
    ∧ (scrapeFeeds oracle now fetch db).db.posts = db.posts
    ∧ (scrapeFeeds oracle now fetch db).db.feeds = markFeedFetched now feed.id db.feeds
    ∧ ∀ g ∈ (scrapeFeeds oracle now fetch db).db.feeds,
        g.id = feed.id → g.lastFetchedAt = some now := by
  have hs : scrapeFeeds oracle now fetch db = ingestFeed oracle now fetch feed db := by
    unfold scrapeFeeds
    rw [hsel]
  rw [hs]
  have hfeeds := ingestFeed_feeds oracle now fetch feed db
  rcases hfail with hf | hf <;>
    exact ⟨by simp [ingestFeed, hf], by simp [ingestFeed, hf], hfeeds,
      fun g hg hid => markFeedFetched_mem (hfeeds ▸ hg) hid⟩

/-- C3 witness: a concrete failing fetch against a one-feed database. -/
theorem scrape_fetch_failure_witness :
    (scrapeFeeds noFail 42 (fun _ => FetchRes.fetchErr) dbX).outcome = .errFetch
    ∧ (scrapeFeeds noFail 42 (fun _ => FetchRes.fetchErr) dbX).db.posts = dbX.posts
    ∧ (scrapeFeeds noFail 42 (fun _ => FetchRes.fetchErr) dbX).db.feeds
        = markFeedFetched 42 feedX.id dbX.feeds :=
  ⟨(scrape_fetch_failure noFail 42 (fun _ => FetchRes.fetchErr) dbX feedX rfl (Or.inl rfl)).1,
   (scrape_fetch_failure noFail 42 (fun _ => FetchRes.fetchErr) dbX feedX rfl (Or.inl rfl)).2.1,
   (scrape_fetch_failure noFail 42 (fun _ => FetchRes.fetchErr) dbX feedX rfl (Or.inl rfl)).2.2.1⟩

end Gator

namespace Gator

def feedA : Feed := ⟨1, "A", "http://a", none⟩

def feedB : Feed := ⟨2, "B", "http://b", some 0⟩

def feedC : Feed := ⟨3, "C", "http://c", some 3300⟩

/-- The staleness scenario: A never fetched, B fetched an hour before
now = 3600, C fetched five minutes before now. -/
def feedsABC : List Feed := [feedA, feedB, feedC]

/-- C4: the Feed Selector returns a feed that belongs to the collection
and than which no other member is staler (null before any timestamp);
an empty collection yields `NoFeedsError`; on the A/B/C staleness
scenario three successive cycles (each one marking its pick as attempted)
select A, then B, then C; and a tie between two never-fetched feeds goes
to the earlier-inserted one. -/
theorem selector_stalest_first :
    (∀ (feeds : List Feed) (f : Feed), getNextFeedToFetch feeds = some f →
        f ∈ feeds ∧ ∀ g ∈ feeds, staleLT g.lastFetchedAt f.lastFetchedAt = false)
    ∧ getNextFeedToFetch ([] : List Feed) = none
    ∧ (scrapeFeeds noFail 0 (fun _ => FetchRes.fetchErr) ⟨[], []⟩).outcome = .errNoFeeds
    ∧ getNextFeedToFetch feedsABC = some feedA
    ∧ getNextFeedToFetch (markFeedFetched 3600 feedA.id feedsABC) = some feedB
    ∧ getNextFeedToFetch (markFeedFetched 3601 feedB.id (markFeedFetched 3600 feedA.id feedsABC))
        = some feedC
    ∧ getNextFeedToFetch [⟨1, "A", "http://a", none⟩, ⟨2, "B", "http://b", none⟩]
        = some ⟨1, "A", "http://a", none⟩ :=
  ⟨fun _ _ h => getNextFeedToFetch_min h, by decide, by decide, by decide, by decide,
   by decide, by decide⟩

/-- C4 witness: the universally quantified selector contract applied to
the concrete A/B/C collection. -/
theorem selector_stalest_first_witness :
    feedA ∈ feedsABC ∧ ∀ g ∈ feedsABC, staleLT g.lastFetchedAt feedA.lastFetchedAt = false :=
  selector_stalest_first.1 feedsABC feedA (by decide)

/-- C5: `parsePublishedDate` consults exactly the six formats RFC-1123
with numeric zone, RFC-1123, RFC-822 with numeric zone, RFC-822,
ISO-8601 date-time and bare `YYYY-MM-DD HH:MM:SS`, in that order; it
returns the result of the first format that parses (all earlier formats
having failed), and it fails with `DateFormatError` exactly when every
format in the list fails. -/
theorem parse_date_first_format :
    timeFormats = [rfc1123zL, rfc1123L, rfc822zL, rfc822L, isoL, bareL]
    ∧ (∀ s : String, parsePublishedDate s = none ↔
        ∀ f ∈ timeFormats, goTimeParse f s.toList = none)
    ∧ (∀ (s : String) (t : GoTime), parsePublishedDate s = some t ↔
        ∃ fs1 f fs2, timeFormats = fs1 ++ f :: fs2 ∧ goTimeParse f s.toList = some t
          ∧ ∀ g ∈ fs1, goTimeParse g s.toList = none) :=
  ⟨rfl, fun s => tryFormats_eq_none_iff s.toList timeFormats,
   fun s t => tryFormats_eq_some_iff s.toList t timeFormats⟩

/-- C5 witness: the characterisation applied to a string no format
accepts, and to one only the second format accepts. -/
theorem parse_date_first_format_witness :
    parsePublishedDate "not-a-date" = none
    ∧ parsePublishedDate "Mon, 02 Jan 2006 15:04:05 MST"
        = some ⟨2006, 1, 2, 15, 4, 5, 0, 0⟩ :=
  ⟨(parse_date_first_format.2.1 "not-a-date").mpr (by decide),
   (parse_date_first_format.2.2 "Mon, 02 Jan 2006 15:04:05 MST"
      ⟨2006, 1, 2, 15, 4, 5, 0, 0⟩).mpr
     ⟨[rfc1123zL], rfc1123L, [rfc822zL, rfc822L, isoL, bareL], rfl, by decide, by decide⟩⟩

end Gator

namespace Gator

theorem aggLoop_cycles (oracle : String → Bool) (fetchAt : Nat → String → FetchRes)
    (clock : Nat → Int) :
    ∀ (n k : Nat) (s : AggState),
      (aggLoop oracle fetchAt clock k n s).cycles = s.cycles + n := by
  intro n
  induction n with
  | zero => intro k s; rfl
  | succ n ih =>
    intro k s
    rw [aggLoop, ih]
    show (aggStep oracle fetchAt clock k s).cycles + n = s.cycles + (n + 1)
    simp [aggStep]
    omega

theorem aggLoop_empty_feeds (oracle : String → Bool) (fetchAt : Nat → String → FetchRes)
    (clock : Nat → Int) (db : DB) (hdb : db.feeds = []) :
    ∀ (n k : Nat) (log : List ScrapeOutcome) (c : Nat),
      aggLoop oracle fetchAt clock k n ⟨db, log, c⟩
        = ⟨db, log ++ List.replicate n .errNoFeeds, c + n⟩ := by
  intro n
  induction n with
  | zero => intro k log c; simp [aggLoop]
  | succ n ih =>
    intro k log c
    rw [aggLoop]
    have hstep : aggStep oracle fetchAt clock k ⟨db, log, c⟩
        = ⟨db, log ++ [.errNoFeeds], c + 1⟩ := by
      unfold aggStep
      rw [scrapeFeeds_no_feeds _ _ _ _ hdb]
    rw [hstep, ih]
    simp [List.replicate_succ]
    omega

/-- C6: the poller runs its first ingestion cycle immediately (tick 0 at
time 0) and one more every fixed interval; every cycle error is appended
to the error log and never stops the loop — after `n` ticks exactly `n`
cycles have run, whatever the outcomes were — and with an empty feed
collection every tick logs `NoFeedsError` while the loop keeps running
and the state stays otherwise unchanged. -/
theorem poller_never_dies (oracle : String → Bool) (fetchAt : Nat → String → FetchRes)
    (clock : Nat → Int) :
    (∀ (n k : Nat) (s : AggState),
        (aggLoop oracle fetchAt clock k n s).cycles = s.cycles + n)
    ∧ (∀ (db : DB), db.feeds = [] → ∀ (n : Nat),
        aggLoop oracle fetchAt clock 0 n ⟨db, [], 0⟩
          = ⟨db, List.replicate n .errNoFeeds, n⟩)
    ∧ (∀ d : Int, tickTime d 0 = 0 ∧ ∀ k : Nat, tickTime d (k + 1) = tickTime d k + d) := by
  refine ⟨aggLoop_cycles oracle fetchAt clock, ?_, ?_⟩
  · intro db hdb n
    have h := aggLoop_empty_feeds oracle fetchAt clock db hdb n 0 [] 0
    simpa using h
  · intro d
    refine ⟨by simp [tickTime], ?_⟩
    intro k
    unfold tickTime
    push_cast
    ring

/-- C6 witness: three ticks over an empty feed collection log three
`NoFeedsError`s and leave the loop running. -/
theorem poller_never_dies_witness :
    aggLoop noFail (fun _ _ => FetchRes.fetchErr) (fun _ => 0) 0 3 ⟨⟨[], []⟩, [], 0⟩
      = ⟨⟨[], []⟩, List.replicate 3 .errNoFeeds, 3⟩ :=
  (poller_never_dies noFail (fun _ _ => FetchRes.fetchErr) (fun _ => 0)).2.1 ⟨[], []⟩ rfl 3

end Gator

namespace Gator

/-- C7 counterexample: the argument `"0s"` is a valid Go duration, so
`handlerAgg` does not report a configuration error for it — instead
`time.NewTicker` panics before the loop; likewise nothing is "reported
and returned" for a zero or negative interval. -/
theorem agg_zero_interval_panics :
    parseDuration "0s" = some 0
    ∧ handlerAggStart ["0s"] = .panicNonPositiveTicker
    ∧ handlerAggStart ["0s"] ≠ .errInvalidDuration
    ∧ handlerAggStart ["0s"] ≠ .errNoArgs := by
  decide

/-- C7 (amended): a missing argument or an unparseable duration makes
`handlerAgg` return a configuration error before the loop; a parseable
zero-or-negative duration passes validation and makes `time.NewTicker`
panic before the loop (a crash, not an error return); the polling loop
is entered exactly for a parseable positive duration. -/
theorem agg_interval_validation :
    handlerAggStart [] = .errNoArgs
    ∧ (∀ (a : String) (rest : List String), parseDuration a = none →
        handlerAggStart (a :: rest) = .errInvalidDuration)
    ∧ (∀ (a : String) (rest : List String) (d : Int), parseDuration a = some d → d ≤ 0 →
        handlerAggStart (a :: rest) = .panicNonPositiveTicker)
    ∧ (∀ (args : List String) (d : Int), handlerAggStart args = .entersLoop d →
        ∃ a rest, args = a :: rest ∧ parseDuration a = some d ∧ 0 < d) := by
  refine ⟨rfl, ?_, ?_, ?_⟩
  · intro a rest h
    simp [handlerAggStart, h]
  · intro a rest d h hle
    simp [handlerAggStart, h, hle]
  · intro args d h
    cases args with
    | nil => cases h
    | cons a rest =>
      simp only [handlerAggStart] at h
      rcases hp : parseDuration a with _ | d0
      · rw [hp] at h
        cases h
      · rw [hp] at h
        dsimp only at h
        by_cases hle : d0 ≤ 0
        · rw [if_pos hle] at h
          cases h
        · rw [if_neg hle] at h
          cases h
          exact ⟨a, rest, rfl, hp, by omega⟩

/-- C7 witness: a malformed interval is rejected before the loop, and a
negative one reaches the ticker panic. -/
theorem agg_interval_validation_witness :
    handlerAggStart ["abc"] = .errInvalidDuration
    ∧ handlerAggStart ["-5s"] = .panicNonPositiveTicker :=
  ⟨agg_interval_validation.2.1 "abc" [] (by decide),
   agg_interval_validation.2.2.1 "-5s" [] (-5000000000) (by decide) (by decide)⟩

/-- C8: across every operation of the system (an aggregation cycle,
adding a feed, or any handler that does not write the feeds table), each
existing feed's `last_fetched_at` is monotonically non-decreasing and,
once set, never null again — given that the wall clock an operation
carries is not behind any recorded fetch time. -/
theorem staleness_never_regresses (op : SysOp) (db : DB) (h : ClockOK op db)
    (i : Nat) (h1 : i < db.feeds.length) (h2 : i < (applyOp op db).feeds.length) :
    FeedMono (db.feeds.get ⟨i, h1⟩) ((applyOp op db).feeds.get ⟨i, h2⟩) := by
  simp only [List.get_eq_getElem]
  cases op with
  | readOnly => exact fun t ht => ⟨t, ht, le_refl t⟩
  | addFeed f =>
    have heq : (applyOp (SysOp.addFeed f) db).feeds[i] = db.feeds[i] := by
      unfold applyOp
      by_cases hdup : db.feeds.any (fun g => g.url = f.url)
      · simp only [if_pos hdup]
      · simp only [if_neg hdup]
        exact List.getElem_append_left h1
    rw [heq]
    exact fun t ht => ⟨t, ht, le_refl t⟩
  | cycle oracle now fetch =>
    have hclock : ∀ g ∈ db.feeds, ∀ t : Int, g.lastFetchedAt = some t → t ≤ now := h
    rcases hsel : getNextFeedToFetch db.feeds with _ | feed
    · have heq : (applyOp (SysOp.cycle oracle now fetch) db).feeds[i] = db.feeds[i] := by
        show (scrapeFeeds oracle now fetch db).db.feeds[i] = db.feeds[i]
        have : (scrapeFeeds oracle now fetch db).db.feeds = db.feeds := by
          unfold scrapeFeeds
          rw [hsel]
        simp only [this]
      rw [heq]
      exact fun t ht => ⟨t, ht, le_refl t⟩
    · have hfeeds : (applyOp (SysOp.cycle oracle now fetch) db).feeds
          = markFeedFetched now feed.id db.feeds := by
        show (scrapeFeeds oracle now fetch db).db.feeds = _
        unfold scrapeFeeds
        rw [hsel]
        exact ingestFeed_feeds oracle now fetch feed db
      have h3 : i < (markFeedFetched now feed.id db.feeds).length := by
        rw [← hfeeds]
        exact h2
      have heq : (applyOp (SysOp.cycle oracle now fetch) db).feeds[i]
          = (markFeedFetched now feed.id db.feeds)[i] := by
        simp only [hfeeds]
      rw [heq]
      have hmap : (markFeedFetched now feed.id db.feeds)[i]
          = if (db.feeds[i]).id = feed.id
            then { db.feeds[i] with lastFetchedAt := some now }
            else db.feeds[i] := by
        unfold markFeedFetched
        exact List.getElem_map _
      rw [hmap]
      intro t ht
      by_cases hid : (db.feeds[i]).id = feed.id
      · refine ⟨now, by simp [if_pos hid], ?_⟩
        exact hclock _ (List.getElem_mem h1) t ht
      · exact ⟨t, by simp only [if_neg hid]; exact ht, le_refl t⟩

def dbW : DB := ⟨[⟨9, "w", "http://w", some 5⟩], []⟩

/-- C8 witness: a concrete failing cycle at time 50 over a feed last
fetched at time 5. -/
theorem staleness_never_regresses_witness :
    FeedMono (dbW.feeds.get ⟨0, by decide⟩)
      ((applyOp (SysOp.cycle noFail 50 (fun _ => FetchRes.fetchErr)) dbW).feeds.get
        ⟨0, by decide⟩) := by
  refine staleness_never_regresses (SysOp.cycle noFail 50 (fun _ => FetchRes.fetchErr)) dbW
    ?_ 0 (by decide) (by decide)
  intro g hg t ht
  rcases List.mem_singleton.mp hg with rfl
  simp only [Option.some.injEq] at ht
  omega

/-- C9: the RFC-1123-with-numeric-zone and RFC-1123 renderings of the
same wall-clock time normalize to the same civil instant; an item with an
empty published-date string is persisted with an absent timestamp and no
error or warning; and `"not-a-date"` yields `DateFormatError`. -/
theorem date_normalization_cases :
    parsePublishedDate "Mon, 02 Jan 2006 15:04:05 -0700"
        = some ⟨2006, 1, 2, 15, 4, 5, 0, -25200⟩
    ∧ parsePublishedDate "Mon, 02 Jan 2006 15:04:05 MST"
        = some ⟨2006, 1, 2, 15, 4, 5, 0, 0⟩
    ∧ civilOf ⟨2006, 1, 2, 15, 4, 5, 0, -25200⟩ = civilOf ⟨2006, 1, 2, 15, 4, 5, 0, 0⟩
    ∧ (mkPost 7 ⟨"t", "http://e", "", ""⟩).publishedAt = none
    ∧ processItems noFail 7 [] [] [⟨"t", "http://e", "", ""⟩]
        = ([mkPost 7 ⟨"t", "http://e", "", ""⟩], [])
    ∧ parsePublishedDate "not-a-date" = none := by
  decide

/-- C10 counterexample: for the in-int64-range argument `"2147483648"`
the parsed integer is 2147483648, but the query limit `handlerBrowse`
requests is the `int32`-truncated value -2147483648, not the parsed
integer. -/
theorem browse_limit_truncates :
    sscanInt "2147483648" = some 2147483648
    ∧ handlerBrowse ["2147483648"] = .queried (-2147483648)
    ∧ handlerBrowse ["2147483648"] ≠ .queried 2147483648 := by
  decide

/-- C10 (amended): with no argument `handlerBrowse` requests exactly 2
posts; a non-numeric argument fails with an invalid-limit error before
any posts are fetched; a scannable argument requests the parsed integer
truncated to `int32` — which is exactly the parsed integer whenever it
lies within int32 range. -/
theorem browse_limit_rules :
    handlerBrowse [] = .queried 2
    ∧ (∀ (a : String) (rest : List String), sscanInt a = none →
        handlerBrowse (a :: rest) = .errInvalidLimit)
    ∧ (∀ (a : String) (rest : List String) (n : Int), sscanInt a = some n →
        handlerBrowse (a :: rest) = .queried (int32cast n))
    ∧ (∀ n : Int, -(2 ^ 31) ≤ n → n < 2 ^ 31 → int32cast n = n) := by
  refine ⟨by decide, ?_, ?_, ?_⟩
  · intro a rest h
    simp [handlerBrowse, h]
  · intro a rest n h
    simp [handlerBrowse, h]
  · intro n hlo hhi
    unfold int32cast
    omega

/-- C10 witness: the default, a plain numeric argument, and a
non-numeric argument. -/
theorem browse_limit_rules_witness :
    handlerBrowse ["7"] = .queried (int32cast 7)
    ∧ handlerBrowse ["foo"] = .errInvalidLimit
    ∧ int32cast 7 = 7 :=
  ⟨browse_limit_rules.2.2.1 "7" [] 7 (by decide),
   browse_limit_rules.2.1 "foo" [] (by decide),
   browse_limit_rules.2.2.2 7 (by decide) (by decide)⟩

end Gator
